import Mathlib

/-!
Verification of the pyConfiguration library (Configuration.py,
ConfigurationOption.py, errors.py): a shallow embedding of the
configuration container model and its accessor, merge and cast
operations, with theorems settling the behavioural claims.

Python dictionaries are modelled as insertion-ordered association
lists (`List (String × Obj)`): lookup returns the first binding,
assignment replaces an existing binding in place and otherwise appends.
Exceptions are modelled by `Option`/`Except` results.
-/

namespace PyConfiguration

/--
A Python object as this library manipulates it.  Stored values are
strings, numbers, booleans, None, or instances of the three classes of
Configuration.py: `ConfigOption` (name, value, description),
`ConfigSection` (name, options dict) and `Configuration` (name,
sections dict).
-/
inductive Obj : Type where
  | ostr (s : String)
  | oint (n : Int)
  | obool (b : Bool)
  | onone
  | oopt (name : String) (value : Obj) (descr : Option Obj)
  | osect (name : String) (options : List (String × Obj))
  | oconfig (name : String) (sections : List (String × Obj))

/-- Dictionary lookup `d[k]`: the binding of the first matching key. -/
def lookup : List (String × Obj) → String → Option Obj
  | [], _ => Option.none
  | (k, v) :: rest, key => if k = key then some v else lookup rest key

/-- Dictionary membership `k in d`. -/
def keyMem : List (String × Obj) → String → Bool
  | [], _ => false
  | (k, _) :: rest, key => k == key || keyMem rest key

/-- Dictionary assignment `d[k] = v`: replace the first binding of the
key in place, or append a new binding. -/
def dictInsert : List (String × Obj) → String → Obj → List (String × Obj)
  | [], key, v => [(key, v)]
  | (k, w) :: rest, key, v =>
      if k = key then (k, v) :: rest else (k, w) :: dictInsert rest key v

/-- The `isinstance(x, ConfigOption)` test of `ConfigSection.__setattr__`. -/
def isConfigOption : Obj → Bool
  | .oopt _ _ _ => true
  | _ => false

/-- The `isinstance(x, Configuration)` test of `__add__` / `__iadd__`. -/
def isConfiguration : Obj → Bool
  | .oconfig _ _ => true
  | _ => false

/-- The native value of a `ConfigOption` (its `__call__`), when the
object is one. -/
def optValue : Obj → Option Obj
  | .oopt _ v _ => some v
  | _ => Option.none

/-- The `name` property of a `ConfigOption`, when the object is one. -/
def optName : Obj → Option String
  | .oopt n _ _ => some n
  | _ => Option.none

/-- The `description` of a `ConfigOption`, when the object is one. -/
def optDescr : Obj → Option (Option Obj)
  | .oopt _ _ d => some d
  | _ => Option.none

/-!  ### ConfigSection (Configuration.py lines 131-167)  -/

/-- `ConfigSection.__setattr__`: wrap a non-`ConfigOption` value in a
new `ConfigOption(key, value)` (description `None`), then store it in
the section's options dict under `key`. -/
def sectionSetAttr (opts : List (String × Obj)) (key : String) (value : Obj) :
    List (String × Obj) :=
  dictInsert opts key (if isConfigOption value then value else Obj.oopt key value Option.none)

/-- `ConfigSection.__getattr__`: `self.__section_options[opt]`; a
missing key raises `KeyError`, modelled by `none`. -/
def sectionGetAttr (opts : List (String × Obj)) (key : String) : Option Obj :=
  lookup opts key

/-- `ConfigSection.__contains__` for a string key (the non-`ConfigOption`
branch of the `isinstance` test; the `ConfigOption` branch, identity
membership among the stored values, is not needed by any claim). -/
def sectionContainsKey (opts : List (String × Obj)) (key : String) : Bool :=
  keyMem opts key

/-- `ConfigSection.__iter__`: yields the stored option objects (the
dict's values), not the keys. -/
def sectionIter (opts : List (String × Obj)) : List Obj :=
  opts.map Prod.snd

/-- `ConfigSection.__len__`. -/
def sectionLen (opts : List (String × Obj)) : Nat :=
  opts.length

/-!  ### Configuration (Configuration.py lines 170-252)  -/

/-- State of a `Configuration` instance: its name and its sections dict. -/
structure Configuration : Type where
  name : String
  sections : List (String × Obj)

/-- `Configuration.__get_section`: if the key is absent, a fresh empty
`ConfigSection(sect)` is created and stored under the key first; the
stored entry is returned together with the (possibly mutated) state.
Both `__getattr__` (dot access) and `__getitem__` (bracket access)
delegate to this. -/
def getSection (c : Configuration) (sect : String) : Obj × Configuration :=
  match lookup c.sections sect with
  | some s => (s, c)
  | Option.none =>
      (Obj.osect sect [], ⟨c.name, dictInsert c.sections sect (Obj.osect sect [])⟩)

/-- `Configuration.__contains__` for a string key (the
non-`ConfigSection` branch; the `ConfigSection` branch, identity
membership among the stored values, is not needed by any claim). -/
def configContainsKey (c : Configuration) (key : String) : Bool :=
  keyMem c.sections key

/-- `Configuration.__iter__`: yields the stored section objects (the
dict's values), not the keys. -/
def configIter (c : Configuration) : List Obj :=
  c.sections.map Prod.snd

/-- `Configuration.__len__`. -/
def configLen (c : Configuration) : Nat :=
  c.sections.length

/-- The keys of the sections dict, in order. -/
def configKeys (c : Configuration) : List String :=
  c.sections.map Prod.fst

/-- One step of the merge loops:
`setattr(getattr(c, sname), key, value)` — fetch (or create) the
section `sname` of `c`, then store `value` under `key` in it. -/
def configSetInSection (c : Configuration) (sname key : String) (value : Obj) :
    Configuration :=
  match getSection c sname with
  | (Obj.osect n opts, c') =>
      ⟨c'.name, dictInsert c'.sections sname (Obj.osect n (sectionSetAttr opts key value))⟩
  | (_, c') => c'

/-- The inner merge loop `for o in s: setattr(getattr(c, s()), o.name, o())`
over one section's stored options.  A stored entry that is not a
`ConfigOption` has no `name` attribute, so Python raises
`AttributeError`: modelled by `none`.  (This cannot occur for
configurations built through this module's API.) -/
def mergeOpts (c : Configuration) (sname : String) :
    List (String × Obj) → Option Configuration
  | [] => some c
  | (_, entry) :: rest =>
      match entry with
      | .oopt oname ovalue _ => mergeOpts (configSetInSection c sname oname ovalue) sname rest
      | _ => Option.none

/-- The outer merge loop `for s in src: ...` over the source's stored
sections.  A stored entry that is not a `ConfigSection` cannot be
iterated as one: modelled by `none`.  Note that a section with no
options contributes nothing — the section is never created in the
destination, because `getattr(c, s())` only runs inside the inner loop. -/
def mergeSections (c : Configuration) : List (String × Obj) → Option Configuration
  | [] => some c
  | (_, sv) :: rest =>
      match sv with
      | .osect sname opts =>
          match mergeOpts c sname opts with
          | some c' => mergeSections c' rest
          | Option.none => Option.none
      | _ => Option.none

/-- Copy all options of `src` into `c` (the body shared by `__add__`
and `__iadd__`). -/
def mergeFrom (c src : Configuration) : Option Configuration :=
  mergeSections c src.sections

/-- `Configuration.__add__` after the `isinstance` check: build a fresh
`Configuration` named `self() + "+" + other()`, then copy in `self`'s
options and then `other`'s. -/
def configAdd (a b : Configuration) : Option Configuration :=
  match mergeFrom ⟨a.name ++ "+" ++ b.name, []⟩ a with
  | some c1 => mergeFrom c1 b
  | Option.none => Option.none

/-- The `ValueError` message of `__add__` and `__iadd__`. -/
def mergeTypeMsg : String :=
  "Cannot combine with something that is not another Configuration instance."

/-- `Configuration.__add__` with its `isinstance(other, Configuration)`
check: a non-`Configuration` right operand raises `ValueError` at once,
before anything is read or written. -/
def configAddOp (a : Configuration) (other : Obj) :
    Except String (Option Configuration) :=
  match other with
  | .oconfig bn bs => Except.ok (configAdd a ⟨bn, bs⟩)
  | _ => Except.error mergeTypeMsg

/-- `Configuration.__iadd__` with its `isinstance` check: on success the
left operand's state is the merged one; on the type error nothing has
been touched. -/
def configIAddOp (a : Configuration) (other : Obj) :
    Except String (Option Configuration) :=
  match other with
  | .oconfig bn bs => Except.ok (mergeFrom a ⟨bn, bs⟩)
  | _ => Except.error mergeTypeMsg

/-!  ### Option value casts  -/

/-- A failed numeric cast: Python `int()` raises `ValueError` for an
unparsable string and `TypeError` when given a non-string together with
an explicit base. -/
inductive PyError : Type where
  | valueError
  | typeError
deriving DecidableEq

/-- All-decimal-digit parse of a character list; `none` when empty or
when any character is not a digit. -/
def parseNatDigits (cs : List Char) : Option Nat :=
  if cs.isEmpty then Option.none
  else cs.foldl
    (fun acc c =>
      match acc with
      | some n => if c.isDigit then some (n * 10 + (c.toNat - 48)) else Option.none
      | Option.none => Option.none)
    (some 0)

/-- Strip leading and trailing whitespace from a character list. -/
def pyStrip (cs : List Char) : List Char :=
  ((cs.dropWhile Char.isWhitespace).reverse.dropWhile Char.isWhitespace).reverse

/-- Python `int(s)` for a string argument: surrounding whitespace is
ignored, an optional sign precedes a non-empty run of decimal digits. -/
def pyIntOfString (s : String) : Option Int :=
  let t := pyStrip s.toList
  match t with
  | c :: rest =>
      if c = '-' then (parseNatDigits rest).map (fun n => -(n : Int))
      else if c = '+' then (parseNatDigits rest).map (fun n => (n : Int))
      else (parseNatDigits t).map (fun n => (n : Int))
  | [] => Option.none

/-- `ConfigurationOption.int` (ConfigurationOption.py lines 94-101):
the property runs `int(self.value, base)` with `base = 10`.  With an
explicit base Python only accepts strings: any non-string value —
including an actual number — raises `TypeError`; an unparsable string
raises `ValueError`. -/
def configurationOptionInt (value : Obj) : Except PyError Int :=
  match value with
  | .ostr s =>
      match pyIntOfString s with
      | some n => Except.ok n
      | Option.none => Except.error PyError.valueError
  | _ => Except.error PyError.typeError

/-- `ConfigOption.int` (Configuration.py lines 97-103): plain
`int(self.value)`, which accepts numbers and booleans as well as
integer-like strings. -/
def configOptionInt (value : Obj) : Except PyError Int :=
  match value with
  | .ostr s =>
      match pyIntOfString s with
      | some n => Except.ok n
      | Option.none => Except.error PyError.valueError
  | .oint n => Except.ok n
  | .obool b => Except.ok (if b then 1 else 0)
  | _ => Except.error PyError.typeError

/-!  ### Well-formedness

A `Configuration` built through the module's API satisfies these
invariants: dict keys are distinct (real Python dicts cannot hold
duplicate keys); every stored section is a `ConfigSection` whose name
equals its key; every stored option is a `ConfigOption` whose name
equals its key and whose value is not itself a `ConfigOption` (the only
value shape `__setattr__` refuses to wrap).
-/

/-- Keys of an association list are pairwise distinct. -/
def nodupKeys : List (String × Obj) → Bool
  | [] => true
  | (k, _) :: rest => !keyMem rest k && nodupKeys rest

/-- A well-formed stored option entry. -/
def optionEntryWF : String × Obj → Bool
  | (k, .oopt n v _) => n == k && !isConfigOption v
  | _ => false

/-- A well-formed options dict of a section. -/
def sectionOptsWF (opts : List (String × Obj)) : Bool :=
  nodupKeys opts && opts.all optionEntryWF

/-- A well-formed stored section entry. -/
def sectionEntryWF : String × Obj → Bool
  | (k, .osect n opts) => n == k && sectionOptsWF opts
  | _ => false

/-- The `isinstance(x, ConfigSection)` test. -/
def isSection : Obj → Bool
  | .osect _ _ => true
  | _ => false

/-- Every stored section value is a `ConfigSection` object (the shape
invariant preserved by the merge loops). -/
def sectionsShapeOK (S : List (String × Obj)) : Bool :=
  S.all fun kv => isSection kv.2

/-- A well-formed sections dict. -/
def configSectionsWF (S : List (String × Obj)) : Bool :=
  nodupKeys S && S.all sectionEntryWF

/-- A well-formed `Configuration`. -/
def configWF (c : Configuration) : Bool :=
  configSectionsWF c.sections

/-!  ### Derived observers -/

/-- The option object stored at path `s.k` of a sections dict. -/
def storedOptionS (S : List (String × Obj)) (s k : String) : Option Obj :=
  match lookup S s with
  | some (.osect _ opts) => lookup opts k
  | _ => Option.none

/-- The native value readable at path `s.k`: the stored option's value. -/
def readValueS (S : List (String × Obj)) (s k : String) : Option Obj :=
  (storedOptionS S s k).bind optValue

/-- The option object stored at path `s.k` of a configuration. -/
def storedOption (c : Configuration) (s k : String) : Option Obj :=
  storedOptionS c.sections s k

/-- The native value readable at path `s.k` of a configuration. -/
def readValue (c : Configuration) (s k : String) : Option Obj :=
  readValueS c.sections s k

/-- The value of the option stored under a key of an options dict. -/
def optValueAt (opts : List (String × Obj)) (k : String) : Option Obj :=
  (lookup opts k).bind optValue

/-- The option keys of the section stored under `s`, in order. -/
def optionKeysIn (c : Configuration) (s : String) : List String :=
  match lookup c.sections s with
  | some (.osect _ opts) => opts.map Prod.fst
  | _ => []

/-- What one pass of the merge loops makes of a stored options dict:
each option is rebuilt as a fresh `ConfigOption(o.name, o())` (keyed by
its name, with description `None`). -/
def stripOpts : List (String × Obj) → List (String × Obj)
  | [] => []
  | (_, .oopt n v _) :: rest => (n, Obj.oopt n v Option.none) :: stripOpts rest
  | kv :: rest => kv :: stripOpts rest

/-- What one pass of the merge loops makes of a stored sections dict:
sections are rebuilt (keyed by their name) with rebuilt options, and a
section with no options is dropped entirely. -/
def stripSections : List (String × Obj) → List (String × Obj)
  | [] => []
  | (_, .osect n opts) :: rest =>
      if opts.isEmpty then stripSections rest
      else (n, Obj.osect n (stripOpts opts)) :: stripSections rest
  | kv :: rest => kv :: stripSections rest

/-- The image of one stored section object under a merge pass: its
options rebuilt as fresh copies. -/
def stripSectionObj : Obj → Obj
  | .osect n o => .osect n (stripOpts o)
  | x => x

/-- Whether a stored section entry holds at least one option (only
such sections survive a merge pass). -/
def keepSection : String × Obj → Bool := fun kv =>
  match kv.2 with
  | .osect _ opts => !opts.isEmpty
  | _ => true

/-- A configuration restricted to its sections that hold at least one
option. -/
def dropEmptySections (c : Configuration) : Configuration :=
  ⟨c.name, c.sections.filter keepSection⟩

/-- Equality of contents in the sense of claim C9: the same section
keys, within each section the same option keys, and equal readable
values everywhere (names of the configurations and descriptions play no
part). -/
def ContentsEqual (x y : Configuration) : Prop :=
  configKeys x = configKeys y ∧
  (∀ s ∈ configKeys x, optionKeysIn x s = optionKeysIn y s) ∧
  (∀ s ∈ configKeys x, ∀ k ∈ optionKeysIn x s, readValue x s k = readValue y s k)

/-!  ### Concrete example configurations used to instantiate theorems -/

/-- A small configuration: one `db` section with `port` (carrying a
description) and `host`. -/
def exA : Configuration :=
  ⟨"A", [("db", Obj.osect "db"
    [("port", Obj.oopt "port" (Obj.ostr "5432") (some (Obj.ostr "d"))),
     ("host", Obj.oopt "host" (Obj.ostr "a") Option.none)])]⟩

/-- A second configuration overlapping `exA` on `db.host` and adding a
`web` section. -/
def exB : Configuration :=
  ⟨"B", [("db", Obj.osect "db" [("host", Obj.oopt "host" (Obj.ostr "b") Option.none)]),
         ("web", Obj.osect "web" [("x", Obj.oopt "x" (Obj.oint 1) Option.none)])]⟩

/-- The merge of `exA` and `exB`. -/
def exM : Configuration :=
  ⟨"A+B", [("db", Obj.osect "db"
    [("port", Obj.oopt "port" (Obj.ostr "5432") Option.none),
     ("host", Obj.oopt "host" (Obj.ostr "b") Option.none)]),
    ("web", Obj.osect "web" [("x", Obj.oopt "x" (Obj.oint 1) Option.none)])]⟩

/-- A configuration with one non-empty and one empty section. -/
def exC : Configuration :=
  ⟨"C", [("s", Obj.osect "s" [("k", Obj.oopt "k" (Obj.ostr "x") Option.none)]),
         ("empty", Obj.osect "empty" [])]⟩

/-- The merge of `exC` with itself: the empty section is gone. -/
def exMC : Configuration :=
  ⟨"C+C", [("s", Obj.osect "s" [("k", Obj.oopt "k" (Obj.ostr "x") Option.none)])]⟩

/-!  ### Dictionary lemmas -/

theorem keyMem_false_iff (l : List (String × Obj)) (k : String) :
    keyMem l k = false ↔ lookup l k = Option.none := by
  induction l with
  | nil => simp [keyMem, lookup]
  | cons kv rest ih =>
      obtain ⟨k0, v0⟩ := kv
      by_cases h : k0 = k
      · subst h
        simp [keyMem, lookup]
      · simp [keyMem, lookup, h, ih]

theorem keyMem_true_iff (l : List (String × Obj)) (k : String) :
    keyMem l k = true ↔ (lookup l k).isSome := by
  rcases h : lookup l k with _ | v
  · rw [← keyMem_false_iff] at h
    simp [h]
  · constructor
    · intro _
      simp
    · intro _
      by_contra hc
      rw [Bool.not_eq_true, keyMem_false_iff] at hc
      rw [hc] at h
      cases h

theorem lookup_dictInsert_self (l : List (String × Obj)) (k : String) (v : Obj) :
    lookup (dictInsert l k v) k = some v := by
  induction l with
  | nil => simp [dictInsert, lookup]
  | cons kv rest ih =>
      obtain ⟨k0, v0⟩ := kv
      by_cases h : k0 = k
      · subst h
        simp [dictInsert, lookup]
      · simp [dictInsert, lookup, h, ih]

theorem lookup_dictInsert_ne (l : List (String × Obj)) (k : String) (v : Obj)
    (k' : String) (h : k' ≠ k) :
    lookup (dictInsert l k v) k' = lookup l k' := by
  induction l with
  | nil => simp [dictInsert, lookup, Ne.symm h]
  | cons kv rest ih =>
      obtain ⟨k0, v0⟩ := kv
      by_cases h0 : k0 = k
      · subst h0
        simp [dictInsert, lookup, Ne.symm h]
      · by_cases h1 : k0 = k'
        · subst h1
          simp [dictInsert, lookup, h0]
        · simp [dictInsert, lookup, h0, h1, ih]

theorem dictInsert_of_lookup_none (l : List (String × Obj)) (k : String) (v : Obj)
    (h : lookup l k = Option.none) : dictInsert l k v = l ++ [(k, v)] := by
  induction l with
  | nil => simp [dictInsert]
  | cons kv rest ih =>
      obtain ⟨k0, v0⟩ := kv
      by_cases h0 : k0 = k
      · subst h0
        simp [lookup] at h
      · simp [lookup, h0] at h
        simp [dictInsert, h0, ih h]

theorem dictInsert_of_lookup_some (l : List (String × Obj)) (k : String) (v : Obj)
    (h : lookup l k = some v) : dictInsert l k v = l := by
  induction l with
  | nil => simp [lookup] at h
  | cons kv rest ih =>
      obtain ⟨k0, v0⟩ := kv
      by_cases h0 : k0 = k
      · subst h0
        simp [lookup] at h
        simp [dictInsert, h]
      · simp [lookup, h0] at h
        simp [dictInsert, h0, ih h]

theorem dictInsert_dictInsert_same (l : List (String × Obj)) (k : String) (a b : Obj) :
    dictInsert (dictInsert l k a) k b = dictInsert l k b := by
  induction l with
  | nil => simp [dictInsert]
  | cons kv rest ih =>
      obtain ⟨k0, v0⟩ := kv
      by_cases h0 : k0 = k
      · subst h0
        simp [dictInsert]
      · simp [dictInsert, h0, ih]

theorem lookup_mem (l : List (String × Obj)) (k : String) (v : Obj)
    (h : lookup l k = some v) : (k, v) ∈ l := by
  induction l with
  | nil => simp [lookup] at h
  | cons kv rest ih =>
      obtain ⟨k0, v0⟩ := kv
      by_cases h0 : k0 = k
      · subst h0
        simp [lookup] at h
        simp [h]
      · simp [lookup, h0] at h
        simp [ih h]

theorem lookup_of_mem_nodup (l : List (String × Obj)) (k : String) (v : Obj)
    (h : (k, v) ∈ l) (hn : nodupKeys l = true) : lookup l k = some v := by
  induction l with
  | nil => simp at h
  | cons kv rest ih =>
      obtain ⟨k0, v0⟩ := kv
      simp [nodupKeys] at hn
      rcases List.mem_cons.mp h with h1 | h1
      · injection h1 with hk hv
        subst hk
        subst hv
        simp [lookup]
      · have hrest : lookup rest k = some v := ih h1 hn.2
        have hk0 : k0 ≠ k := by
          intro hc
          subst hc
          have hm : keyMem rest k0 = true := by
            rw [keyMem_true_iff, hrest]
            rfl
          simp [hn.1] at hm
        simp [lookup, hk0, hrest]

theorem lookup_append_of_none (l1 l2 : List (String × Obj)) (k : String)
    (h : lookup l1 k = Option.none) : lookup (l1 ++ l2) k = lookup l2 k := by
  induction l1 with
  | nil => simp
  | cons kv rest ih =>
      obtain ⟨k0, v0⟩ := kv
      by_cases h0 : k0 = k
      · subst h0
        simp [lookup] at h
      · simp [lookup, h0] at h ⊢
        exact ih h

theorem lookup_append_of_some (l1 l2 : List (String × Obj)) (k : String) (v : Obj)
    (h : lookup l1 k = some v) : lookup (l1 ++ l2) k = some v := by
  induction l1 with
  | nil => simp [lookup] at h
  | cons kv rest ih =>
      obtain ⟨k0, v0⟩ := kv
      by_cases h0 : k0 = k
      · subst h0
        simp [lookup] at h ⊢
        exact h
      · simp [lookup, h0] at h ⊢
        exact ih h

theorem dictInsert_append_mid (l1 l2 : List (String × Obj)) (k : String) (w v : Obj)
    (h : lookup l1 k = Option.none) :
    dictInsert (l1 ++ (k, w) :: l2) k v = l1 ++ (k, v) :: l2 := by
  induction l1 with
  | nil => simp [dictInsert]
  | cons kv rest ih =>
      obtain ⟨k0, v0⟩ := kv
      by_cases h0 : k0 = k
      · subst h0
        simp [lookup] at h
      · simp [lookup, h0] at h
        simp [dictInsert, h0, ih h]

theorem all_of_mem {p : String × Obj → Bool} {l : List (String × Obj)}
    (h : l.all p = true) {x : String × Obj} (hx : x ∈ l) : p x = true := by
  rw [List.all_eq_true] at h
  exact h x hx

theorem keyMem_iff_mem_keys (l : List (String × Obj)) (k : String) :
    keyMem l k = true ↔ k ∈ l.map Prod.fst := by
  induction l with
  | nil => simp [keyMem]
  | cons kv rest ih =>
      obtain ⟨k0, v0⟩ := kv
      simp only [keyMem, List.map_cons, List.mem_cons, Bool.or_eq_true, beq_iff_eq]
      by_cases h : k0 = k
      · subst h
        simp
      · simp [h, Ne.symm h, ih]

theorem values_eq_map_lookup (l : List (String × Obj)) (h : nodupKeys l = true) :
    l.map Prod.snd = (l.map Prod.fst).map (fun k => (lookup l k).getD Obj.onone) := by
  induction l with
  | nil => simp
  | cons kv rest ih =>
      obtain ⟨k0, v0⟩ := kv
      simp [nodupKeys] at h
      have htail : ∀ k ∈ rest.map Prod.fst,
          (lookup ((k0, v0) :: rest) k).getD Obj.onone = (lookup rest k).getD Obj.onone := by
        intro k hk
        have hk0 : k0 ≠ k := by
          intro hc
          subst hc
          rw [← keyMem_iff_mem_keys] at hk
          simp [h.1] at hk
        simp [lookup, hk0]
      simp only [List.map_cons]
      rw [List.map_congr_left htail, ← ih h.2]
      simp [lookup]

/-!  ### Merge-step lemmas -/

theorem getSection_of_lookup_some (c : Configuration) (s : String) (e : Obj)
    (h : lookup c.sections s = some e) : getSection c s = (e, c) := by
  rw [getSection, h]

theorem getSection_of_lookup_none (c : Configuration) (s : String)
    (h : lookup c.sections s = Option.none) :
    getSection c s =
      (Obj.osect s [], ⟨c.name, dictInsert c.sections s (Obj.osect s [])⟩) := by
  rw [getSection, h]

theorem configSetInSection_of_some (c : Configuration) (sname key : String) (v : Obj)
    (n : String) (opts : List (String × Obj))
    (h : lookup c.sections sname = some (Obj.osect n opts)) :
    configSetInSection c sname key v =
      ⟨c.name, dictInsert c.sections sname (Obj.osect n (sectionSetAttr opts key v))⟩ := by
  simp only [configSetInSection, getSection_of_lookup_some c sname _ h]

theorem configSetInSection_of_none (c : Configuration) (sname key : String) (v : Obj)
    (h : lookup c.sections sname = Option.none) :
    configSetInSection c sname key v =
      ⟨c.name, dictInsert c.sections sname (Obj.osect sname (sectionSetAttr [] key v))⟩ := by
  simp only [configSetInSection, getSection_of_lookup_none c sname h]
  rw [dictInsert_dictInsert_same]

theorem sectionsShapeOK_dictInsert (S : List (String × Obj)) (k : String) (v : Obj)
    (hv : isSection v = true) (h : sectionsShapeOK S = true) :
    sectionsShapeOK (dictInsert S k v) = true := by
  induction S with
  | nil => simp [dictInsert, sectionsShapeOK, hv]
  | cons kv rest ih =>
      obtain ⟨k0, v0⟩ := kv
      simp only [sectionsShapeOK, List.all_cons, Bool.and_eq_true] at h
      by_cases h0 : k0 = k
      · subst h0
        simp [dictInsert, sectionsShapeOK, hv, h.2]
      · simp only [dictInsert, if_neg h0]
        simp only [sectionsShapeOK, List.all_cons, Bool.and_eq_true]
        exact ⟨h.1, ih h.2⟩

theorem configSetInSection_sections_cases (c : Configuration) (sname key : String)
    (v : Obj) :
    (configSetInSection c sname key v).sections = c.sections ∨
    ∃ n opts, (configSetInSection c sname key v).sections =
      dictInsert c.sections sname (Obj.osect n opts) := by
  rcases hl : lookup c.sections sname with _ | e
  · right
    rw [configSetInSection_of_none c sname key v hl]
    exact ⟨sname, _, rfl⟩
  · cases e
    case osect n opts =>
      right
      rw [configSetInSection_of_some c sname key v n opts hl]
      exact ⟨n, _, rfl⟩
    all_goals
      left
      simp [configSetInSection, getSection, hl]

theorem configSetInSection_shape (c : Configuration) (sname key : String) (v : Obj)
    (h : sectionsShapeOK c.sections = true) :
    sectionsShapeOK (configSetInSection c sname key v).sections = true := by
  rcases configSetInSection_sections_cases c sname key v with hc | ⟨n, opts, hc⟩
  · rw [hc]
    exact h
  · rw [hc]
    exact sectionsShapeOK_dictInsert _ _ _ rfl h

theorem configSetInSection_name (c : Configuration) (sname key : String) (v : Obj) :
    (configSetInSection c sname key v).name = c.name := by
  rcases hl : lookup c.sections sname with _ | e
  · rw [configSetInSection_of_none c sname key v hl]
  · cases e
    case osect n opts => rw [configSetInSection_of_some c sname key v n opts hl]
    all_goals simp [configSetInSection, getSection, hl]

/-- The effect of one merge assignment on the option stored at any
path: path `sname.key` now holds a fresh `ConfigOption(key, v)`, every
other path is untouched. -/
theorem storedOptionS_configSetInSection (c : Configuration) (sname key : String)
    (v : Obj) (hshape : sectionsShapeOK c.sections = true)
    (hv : isConfigOption v = false) (s k : String) :
    storedOptionS (configSetInSection c sname key v).sections s k =
      if s = sname ∧ k = key then some (Obj.oopt key v Option.none)
      else storedOptionS c.sections s k := by
  rcases hl : lookup c.sections sname with _ | e
  case none =>
      rw [configSetInSection_of_none c sname key v hl]
      by_cases hs : s = sname
      · subst hs
        by_cases hk : k = key
        · subst hk
          simp [storedOptionS, lookup_dictInsert_self, sectionSetAttr, hv, dictInsert, lookup]
        · simp [storedOptionS, lookup_dictInsert_self, sectionSetAttr, hv, dictInsert,
            lookup, Ne.symm hk, hk, hl]
      · simp [storedOptionS, lookup_dictInsert_ne _ _ _ _ hs, hs]
  case some =>
      have hself := all_of_mem hshape (lookup_mem c.sections sname e hl)
      cases e
      case osect n opts =>
        rw [configSetInSection_of_some c sname key v n opts hl]
        by_cases hs : s = sname
        · subst hs
          by_cases hk : k = key
          · subst hk
            simp [storedOptionS, lookup_dictInsert_self, sectionSetAttr, hv]
          · simp [storedOptionS, lookup_dictInsert_self, sectionSetAttr, hv,
              lookup_dictInsert_ne _ _ _ _ hk, hk, hl]
        · simp [storedOptionS, lookup_dictInsert_ne _ _ _ _ hs, hs]
      all_goals simp [isSection] at hself

theorem optValueAt_cons (k0 : String) (e0 : Obj) (rest : List (String × Obj))
    (k : String) :
    optValueAt ((k0, e0) :: rest) k =
      if k0 = k then optValue e0 else optValueAt rest k := by
  by_cases h : k0 = k <;> simp [optValueAt, lookup, h]

/-- Effect of the inner merge loop over one well-formed options dict:
it succeeds, and afterwards every key of the dict is stored in section
`sname` as a fresh `ConfigOption` holding the dict's value for it,
everything else being untouched. -/
theorem mergeOpts_characterization (opts : List (String × Obj)) (c : Configuration)
    (sname : String) (hshape : sectionsShapeOK c.sections = true)
    (hwf : opts.all optionEntryWF = true) (hnd : nodupKeys opts = true) :
    ∃ c2, mergeOpts c sname opts = some c2 ∧
      sectionsShapeOK c2.sections = true ∧ c2.name = c.name ∧
      ∀ s k, storedOptionS c2.sections s k =
        if s = sname then
          match optValueAt opts k with
          | some v => some (Obj.oopt k v Option.none)
          | Option.none => storedOptionS c.sections s k
        else storedOptionS c.sections s k := by
  induction opts generalizing c with
  | nil =>
      refine ⟨c, rfl, hshape, rfl, ?_⟩
      intro s k
      simp only [optValueAt, lookup, Option.bind]
      split <;> rfl
  | cons kv rest ih =>
      obtain ⟨k0, e0⟩ := kv
      simp only [List.all_cons, Bool.and_eq_true] at hwf
      obtain ⟨hwe, hwfr⟩ := hwf
      simp only [nodupKeys, Bool.and_eq_true, Bool.not_eq_true'] at hnd
      cases e0
      case oopt n v d =>
        simp only [optionEntryWF, Bool.and_eq_true, beq_iff_eq, Bool.not_eq_true'] at hwe
        obtain ⟨hn, hvco⟩ := hwe
        subst hn
        obtain ⟨c2, hm, hsh2, hname2, hstored⟩ :=
          ih (configSetInSection c sname n v)
            (configSetInSection_shape _ _ _ _ hshape) hwfr hnd.2
        refine ⟨c2, ?_, hsh2, ?_, ?_⟩
        · simpa [mergeOpts] using hm
        · rw [hname2, configSetInSection_name]
        · intro s k
          have hA := storedOptionS_configSetInSection c sname n v hshape hvco
          rw [hstored s k]
          by_cases hs : s = sname
          · subst hs
            simp only [if_pos rfl, optValueAt_cons]
            by_cases hk : k = n
            · have hrn : optValueAt rest n = Option.none := by
                rw [optValueAt, (keyMem_false_iff rest n).mp hnd.1]
                rfl
              subst hk
              rw [hrn]
              simp [hA, optValue]
            · have hkk : ¬(n = k) := fun hh => hk hh.symm
              rw [if_neg hkk]
              rcases hr : optValueAt rest k with _ | v'
              · simp [hA, hk]
              · simp
          · simp only [if_neg hs]
            rw [hA s k]
            simp [hs]
      all_goals simp [optionEntryWF] at hwe

/-- Effect of the outer merge loop over a well-formed sections dict:
it succeeds, and afterwards every path readable in the source is stored
in the destination as a fresh `ConfigOption` holding the source's
value, everything else being untouched. -/
theorem mergeSections_characterization (S : List (String × Obj)) (c : Configuration)
    (hshape : sectionsShapeOK c.sections = true)
    (hwf : S.all sectionEntryWF = true) (hnd : nodupKeys S = true) :
    ∃ c2, mergeSections c S = some c2 ∧
      sectionsShapeOK c2.sections = true ∧ c2.name = c.name ∧
      ∀ s k, storedOptionS c2.sections s k =
        match readValueS S s k with
        | some v => some (Obj.oopt k v Option.none)
        | Option.none => storedOptionS c.sections s k := by
  induction S generalizing c with
  | nil =>
      refine ⟨c, rfl, hshape, rfl, ?_⟩
      intro s k
      simp [readValueS, storedOptionS, lookup]
  | cons kv rest ih =>
      obtain ⟨s0, e0⟩ := kv
      simp only [List.all_cons, Bool.and_eq_true] at hwf
      obtain ⟨hwe, hwfr⟩ := hwf
      simp only [nodupKeys, Bool.and_eq_true, Bool.not_eq_true'] at hnd
      cases e0
      case osect n opts =>
        simp only [sectionEntryWF, Bool.and_eq_true, beq_iff_eq] at hwe
        obtain ⟨hn, hoptswf⟩ := hwe
        subst hn
        simp only [sectionOptsWF, Bool.and_eq_true] at hoptswf
        obtain ⟨hondp, hoall⟩ := hoptswf
        obtain ⟨c1, hm1, hsh1, hname1, hst1⟩ :=
          mergeOpts_characterization opts c n hshape hoall hondp
        obtain ⟨c2, hm2, hsh2, hname2, hst2⟩ := ih c1 hsh1 hwfr hnd.2
        refine ⟨c2, ?_, hsh2, by rw [hname2, hname1], ?_⟩
        · simp [mergeSections, hm1, hm2]
        · intro s k
          rw [hst2 s k]
          by_cases hs : s = n
          · subst hs
            have hrn : readValueS rest s k = Option.none := by
              rw [readValueS, storedOptionS, (keyMem_false_iff rest s).mp hnd.1]
              rfl
            have hrv : readValueS ((s, Obj.osect s opts) :: rest) s k = optValueAt opts k := by
              simp [readValueS, storedOptionS, lookup, optValueAt]
            rw [hrn, hrv, hst1 s k]
            simp
          · have hrv : readValueS ((n, Obj.osect n opts) :: rest) s k
                = readValueS rest s k := by
              simp [readValueS, storedOptionS, lookup, Ne.symm hs]
            rw [hrv]
            rcases hr : readValueS rest s k with _ | v'
            · rw [hst1 s k, if_neg hs]
            · rfl
      all_goals simp [sectionEntryWF] at hwe

/-- Full characterization of `__add__` on well-formed configurations:
it succeeds, and the merged tree stores at every path a freshly
constructed `ConfigOption` (named by the option key, description
`None`) holding `b`'s readable value there if any, else `a`'s, and
nothing anywhere else. -/
theorem configAdd_storedOption (a b : Configuration)
    (ha : configWF a = true) (hb : configWF b = true) :
    ∃ m, configAdd a b = some m ∧
      ∀ s k, storedOption m s k =
        match (readValue b s k).orElse (fun _ => readValue a s k) with
        | some v => some (Obj.oopt k v Option.none)
        | Option.none => Option.none := by
  simp only [configWF, configSectionsWF, Bool.and_eq_true] at ha hb
  obtain ⟨c1, hm1, hsh1, _, hst1⟩ :=
    mergeSections_characterization a.sections ⟨a.name ++ "+" ++ b.name, []⟩ rfl ha.2 ha.1
  obtain ⟨c2, hm2, hsh2, _, hst2⟩ :=
    mergeSections_characterization b.sections c1 hsh1 hb.2 hb.1
  refine ⟨c2, ?_, ?_⟩
  · simp only [configAdd, mergeFrom, hm1, hm2]
  · intro s k
    rw [storedOption, hst2 s k]
    rcases hrb : readValueS b.sections s k with _ | v
    · rw [hst1 s k]
      rcases hra : readValueS a.sections s k with _ | v
      · simp [readValue, hra, hrb, storedOptionS, lookup, Option.orElse]
      · simp [readValue, hra, hrb, Option.orElse]
    · simp [readValue, hrb, Option.orElse]

/-!  ### Claims C1 to C4, C6, C7, C10 -/

/-- Claim C1 counterexample: on an empty `Configuration`, a dot- or
bracket-style get of the absent key `"db"` does not fail at all — it
returns a fresh empty section and mutates the container, contradicting
"fails with KeyNotPresentError and the container is left unchanged". -/
theorem claim_C1_counterexample :
    (getSection ⟨"Configuration", []⟩ "db").1 = Obj.osect "db" [] ∧
    (getSection ⟨"Configuration", []⟩ "db").2 ≠ (⟨"Configuration", []⟩ : Configuration) := by
  refine ⟨rfl, ?_⟩
  intro h
  have h2 := congrArg Configuration.sections h
  simp [getSection, dictInsert, lookup] at h2

/-- Claim C1 as amended: a get of an absent option key on a section
container fails (Python `KeyError`, modelled by `none`) and leaves it
unchanged; but on a `Configuration`, a dot- or bracket-style get of an
absent key does not fail — it creates, stores and returns a fresh empty
section, mutating the container. -/
theorem claim_C1_missing_key_get (opts : List (String × Obj)) (c : Configuration)
    (k k' : String) (h1 : keyMem opts k = false) (h2 : keyMem c.sections k' = false) :
    sectionGetAttr opts k = Option.none ∧
    getSection c k' = (Obj.osect k' [], ⟨c.name, c.sections ++ [(k', Obj.osect k' [])]⟩) := by
  have hl1 := (keyMem_false_iff opts k).mp h1
  have hl2 := (keyMem_false_iff c.sections k').mp h2
  refine ⟨hl1, ?_⟩
  rw [getSection, hl2, dictInsert_of_lookup_none c.sections k' (Obj.osect k' []) hl2]

/-- Claim C1 witness. -/
theorem claim_C1_missing_key_get_witness :
    keyMem [] "x" = false ∧
    keyMem ([("a", Obj.osect "a" [])] : List (String × Obj)) "db" = false ∧
    (sectionGetAttr [] "x" = Option.none ∧
     getSection ⟨"Configuration", [("a", Obj.osect "a" [])]⟩ "db" =
       (Obj.osect "db" [],
        ⟨"Configuration", [("a", Obj.osect "a" []), ("db", Obj.osect "db" [])]⟩)) :=
  ⟨rfl, rfl,
   claim_C1_missing_key_get [] ⟨"Configuration", [("a", Obj.osect "a" [])]⟩ "x" "db" rfl rfl⟩

/-- Claim C2: a dot- or bracket-style get of an absent key on a
`Configuration` never raises: it constructs a fresh empty section named
by the key, stores it under the key, and returns it; afterwards the key
is a member of the container and the length has grown by one. -/
theorem claim_C2_autovivification (c : Configuration) (k : String)
    (h : keyMem c.sections k = false) :
    (getSection c k).1 = Obj.osect k [] ∧
    lookup ((getSection c k).2).sections k = some (Obj.osect k []) ∧
    configContainsKey (getSection c k).2 k = true ∧
    configLen (getSection c k).2 = configLen c + 1 := by
  have hl := (keyMem_false_iff c.sections k).mp h
  have happ := dictInsert_of_lookup_none c.sections k (Obj.osect k []) hl
  rw [getSection, hl]
  refine ⟨rfl, ?_, ?_, ?_⟩
  · exact lookup_dictInsert_self c.sections k (Obj.osect k [])
  · rw [configContainsKey, keyMem_true_iff]
    simp [lookup_dictInsert_self c.sections k (Obj.osect k [])]
  · simp [configLen, happ]

/-- Claim C2 witness. -/
theorem claim_C2_autovivification_witness :
    keyMem ([("a", Obj.osect "a" [])] : List (String × Obj)) "db" = false ∧
    ((getSection ⟨"Configuration", [("a", Obj.osect "a" [])]⟩ "db").1 = Obj.osect "db" [] ∧
     lookup ((getSection ⟨"Configuration", [("a", Obj.osect "a" [])]⟩ "db").2).sections "db" =
       some (Obj.osect "db" []) ∧
     configContainsKey (getSection ⟨"Configuration", [("a", Obj.osect "a" [])]⟩ "db").2 "db" = true ∧
     configLen (getSection ⟨"Configuration", [("a", Obj.osect "a" [])]⟩ "db").2 =
       configLen ⟨"Configuration", [("a", Obj.osect "a" [])]⟩ + 1) :=
  ⟨rfl, claim_C2_autovivification ⟨"Configuration", [("a", Obj.osect "a" [])]⟩ "db" rfl⟩

/-- Claim C3 counterexample: an attribute-style set of the reserved
name `"name"` on a section container does not fail with
`DotNotationSetError` — the assignment is performed and the entry is
readable afterwards. -/
theorem claim_C3_counterexample :
    sectionSetAttr [] "name" (Obj.ostr "x") =
      [("name", Obj.oopt "name" (Obj.ostr "x") Option.none)] ∧
    sectionGetAttr (sectionSetAttr [] "name" (Obj.ostr "x")) "name" =
      some (Obj.oopt "name" (Obj.ostr "x") Option.none) :=
  ⟨rfl, rfl⟩

/-- Claim C3 as amended: `ConfigSection.__setattr__` performs no
reserved-name check at all: for every key, reserved names included, the
assignment is performed (a plain value is wrapped into a
`ConfigOption` named by the key) and the key is subsequently present
and readable.  `ConfigurationDotNotationSetError` is declared in
errors.py but never raised, and the code has no `setOption` or
bracket-style setter. -/
theorem claim_C3_attr_set_never_fails (opts : List (String × Obj)) (r : String) (v : Obj) :
    sectionContainsKey (sectionSetAttr opts r v) r = true ∧
    sectionGetAttr (sectionSetAttr opts r v) r =
      some (if isConfigOption v then v else Obj.oopt r v Option.none) := by
  have hl := lookup_dictInsert_self opts r
    (if isConfigOption v then v else Obj.oopt r v Option.none)
  constructor
  · rw [sectionContainsKey, keyMem_true_iff, sectionSetAttr, hl]
    rfl
  · exact hl

/-- Claim C4 counterexample: storing a `Configuration` object under a
key wraps it in a fresh `ConfigOption` — the stored entry is the
wrapper, not the same object, contradicting "when v is already an
Option (or Configuration), the very same entry object is stored". -/
theorem claim_C4_counterexample :
    sectionGetAttr (sectionSetAttr [] "k" (Obj.oconfig "sub" [])) "k" =
      some (Obj.oopt "k" (Obj.oconfig "sub" []) Option.none) ∧
    some (Obj.oopt "k" (Obj.oconfig "sub" []) Option.none) ≠
      some (Obj.oconfig "sub" ([] : List (String × Obj))) := by
  refine ⟨rfl, ?_⟩
  intro h
  injection h with h1
  cases h1

/-- Claim C4 as amended: after `set k v`, `get k` returns an entry
whose native value is `v` itself; when `v` is already a
`ConfigOption`, the very same entry is stored and returned; any other
object — including a `Configuration` — is wrapped in a fresh
`ConfigOption` whose value is `v`. -/
theorem claim_C4_set_get_round_trip (opts : List (String × Obj)) (k : String)
    (v : Obj) (n : String) (w : Obj) (d : Option Obj)
    (hv : isConfigOption v = false) :
    (sectionGetAttr (sectionSetAttr opts k v) k).bind optValue = some v ∧
    sectionGetAttr (sectionSetAttr opts k (Obj.oopt n w d)) k = some (Obj.oopt n w d) := by
  constructor
  · rw [sectionGetAttr, sectionSetAttr, hv]
    simp only [Bool.false_eq_true, if_false, lookup_dictInsert_self]
    rfl
  · rw [sectionGetAttr, sectionSetAttr]
    simp only [isConfigOption, if_pos, lookup_dictInsert_self]

/-- Claim C4 witness. -/
theorem claim_C4_set_get_round_trip_witness :
    isConfigOption (Obj.ostr "localhost") = false ∧
    ((sectionGetAttr (sectionSetAttr [] "host" (Obj.ostr "localhost")) "host").bind optValue =
       some (Obj.ostr "localhost") ∧
     sectionGetAttr (sectionSetAttr [] "host" (Obj.oopt "n" (Obj.oint 1) Option.none)) "host" =
       some (Obj.oopt "n" (Obj.oint 1) Option.none)) :=
  ⟨rfl, claim_C4_set_get_round_trip [] "host" (Obj.ostr "localhost") "n" (Obj.oint 1)
    Option.none rfl⟩

/-- Claim C6: both merge variants check the right-hand operand first
and raise `ValueError` for a non-`Configuration`; the error is returned
before any section or option is read or written, so the left operand's
contents are untouched (the failing result carries no mutated state). -/
theorem claim_C6_merge_type_check (a : Configuration) (other : Obj)
    (h : isConfiguration other = false) :
    configAddOp a other = Except.error mergeTypeMsg ∧
    configIAddOp a other = Except.error mergeTypeMsg := by
  cases other <;> simp_all [configAddOp, configIAddOp, isConfiguration]

/-- Claim C6 witness. -/
theorem claim_C6_merge_type_check_witness :
    isConfiguration (Obj.ostr "x") = false ∧
    (configAddOp ⟨"Configuration", []⟩ (Obj.ostr "x") = Except.error mergeTypeMsg ∧
     configIAddOp ⟨"Configuration", []⟩ (Obj.ostr "x") = Except.error mergeTypeMsg) :=
  ⟨rfl, claim_C6_merge_type_check ⟨"Configuration", []⟩ (Obj.ostr "x") rfl⟩

/-- Claim C7, evaluated at the inputs that decide it: the
`ConfigurationOption.int` property parses the string `"42"` to 42 and
fails on `"3.5"`, but on an option holding the actual number 42 it
fails with `TypeError` (because `int(value, base)` is called with an
explicit base), although the property's own docstring promises the
value as an int with `ValueError` as the only failure; the
first-generation `ConfigOption.int` (plain `int(value)`) returns 42
there. -/
theorem claim_C7_int_cast :
    configurationOptionInt (Obj.ostr "42") = Except.ok 42 ∧
    configurationOptionInt (Obj.ostr "3.5") = Except.error PyError.valueError ∧
    configurationOptionInt (Obj.oint 42) = Except.error PyError.typeError ∧
    configOptionInt (Obj.oint 42) = Except.ok 42 :=
  ⟨rfl, rfl, rfl, rfl⟩

/-- Claim C10 counterexample: iterating a `Configuration` holding one
section keyed `"alpha"` yields the stored `ConfigSection` object, not
the key string. -/
theorem claim_C10_counterexample :
    configIter ⟨"Configuration", [("alpha", Obj.osect "alpha" [])]⟩ =
      [Obj.osect "alpha" []] ∧
    configIter ⟨"Configuration", [("alpha", Obj.osect "alpha" [])]⟩ ≠
      [Obj.ostr "alpha"] := by
  refine ⟨rfl, ?_⟩
  intro h
  injection h with h1 h2
  cases h1

/-- Claim C10 as amended: iterating a `Configuration` (or a section)
yields the stored entry objects — the mapping's values, not its keys —
one per key in key order: the sequence equals the key sequence with
each key replaced by the entry stored under it. -/
theorem claim_C10_iteration_yields_entries (c : Configuration)
    (opts : List (String × Obj))
    (h1 : nodupKeys c.sections = true) (h2 : nodupKeys opts = true) :
    configIter c = (configKeys c).map (fun k => (lookup c.sections k).getD Obj.onone) ∧
    sectionIter opts = (opts.map Prod.fst).map (fun k => (lookup opts k).getD Obj.onone) :=
  ⟨values_eq_map_lookup c.sections h1, values_eq_map_lookup opts h2⟩

/-- Claim C10 witness. -/
theorem claim_C10_iteration_yields_entries_witness :
    nodupKeys ([("a", Obj.osect "a" []), ("b", Obj.osect "b" [])] : List (String × Obj)) = true ∧
    (configIter ⟨"Configuration", [("a", Obj.osect "a" []), ("b", Obj.osect "b" [])]⟩ =
       (configKeys ⟨"Configuration", [("a", Obj.osect "a" []), ("b", Obj.osect "b" [])]⟩).map
         (fun k => (lookup [("a", Obj.osect "a" []), ("b", Obj.osect "b" [])] k).getD Obj.onone) ∧
     sectionIter [("a", Obj.osect "a" []), ("b", Obj.osect "b" [])] =
       ([("a", Obj.osect "a" []), ("b", Obj.osect "b" [])].map Prod.fst).map
         (fun k => (lookup [("a", Obj.osect "a" []), ("b", Obj.osect "b" [])] k).getD Obj.onone)) :=
  ⟨rfl, claim_C10_iteration_yields_entries
    ⟨"Configuration", [("a", Obj.osect "a" []), ("b", Obj.osect "b" [])]⟩
    [("a", Obj.osect "a" []), ("b", Obj.osect "b" [])] rfl rfl⟩

/-!  ### Structural merge lemmas (for the self-merge claim) -/

theorem keyMem_append (l1 l2 : List (String × Obj)) (k : String) :
    keyMem (l1 ++ l2) k = (keyMem l1 k || keyMem l2 k) := by
  induction l1 with
  | nil => simp [keyMem]
  | cons kv rest ih =>
      obtain ⟨k0, v0⟩ := kv
      simp [keyMem, ih, Bool.or_assoc]

theorem ne_of_keyMem_false {l : List (String × Obj)} {k : String}
    (h : keyMem l k = false) {kv : String × Obj} (hm : kv ∈ l) : kv.1 ≠ k := by
  intro hc
  have hk : keyMem l kv.1 = true :=
    (keyMem_iff_mem_keys l kv.1).mpr (List.mem_map_of_mem Prod.fst hm)
  rw [hc, h] at hk
  cases hk

/-- Running the inner merge loop against a freshly created section
sitting at the end of the destination appends one fresh
`ConfigOption` per source option, in source order. -/
theorem mergeOpts_fresh_section (opts : List (String × Obj)) (nm sname n2 : String)
    (C acc : List (String × Obj))
    (hwf : opts.all optionEntryWF = true) (hnd : nodupKeys opts = true)
    (hCn : lookup C sname = Option.none)
    (hdisj : opts.all (fun kv => !keyMem acc kv.1) = true) :
    mergeOpts ⟨nm, C ++ [(sname, Obj.osect n2 acc)]⟩ sname opts =
      some ⟨nm, C ++ [(sname, Obj.osect n2 (acc ++ stripOpts opts))]⟩ := by
  induction opts generalizing acc with
  | nil => simp [mergeOpts, stripOpts]
  | cons kv rest ih =>
      obtain ⟨k0, e0⟩ := kv
      simp only [List.all_cons, Bool.and_eq_true] at hwf hdisj
      obtain ⟨hwe, hwfr⟩ := hwf
      obtain ⟨hdh, hdr⟩ := hdisj
      simp only [nodupKeys, Bool.and_eq_true, Bool.not_eq_true'] at hnd
      cases e0
      case oopt n v d =>
        simp only [optionEntryWF, Bool.and_eq_true, beq_iff_eq, Bool.not_eq_true'] at hwe
        obtain ⟨hn, hvco⟩ := hwe
        subst hn
        simp only [Bool.not_eq_true'] at hdh
        have hlacc : lookup acc n = Option.none := (keyMem_false_iff acc n).mp hdh
        have hsec : lookup (C ++ [(sname, Obj.osect n2 acc)]) sname
            = some (Obj.osect n2 acc) := by
          rw [lookup_append_of_none _ _ _ hCn]
          simp [lookup]
        have hset : configSetInSection ⟨nm, C ++ [(sname, Obj.osect n2 acc)]⟩ sname n v =
            ⟨nm, C ++ [(sname, Obj.osect n2 (acc ++ [(n, Obj.oopt n v Option.none)]))]⟩ := by
          rw [configSetInSection_of_some _ _ _ _ _ _ hsec]
          rw [sectionSetAttr, hvco]
          simp only [Bool.false_eq_true, if_false]
          rw [dictInsert_of_lookup_none acc n _ hlacc]
          rw [dictInsert_append_mid C [] sname _ _ hCn]
        have hdr2 : rest.all (fun kv => !keyMem (acc ++ [(n, Obj.oopt n v Option.none)]) kv.1)
            = true := by
          rw [List.all_eq_true]
          intro kv hkv
          have h1 : keyMem acc kv.1 = false := by
            have := all_of_mem hdr hkv
            simpa using this
          have h2 : kv.1 ≠ n := ne_of_keyMem_false hnd.1 hkv
          simp [keyMem_append, keyMem, h1, Ne.symm h2]
        simp only [mergeOpts]
        rw [hset]
        rw [ih (acc ++ [(n, Obj.oopt n v Option.none)]) hwfr hnd.2 hdr2]
        simp [stripOpts, List.append_assoc]
      all_goals simp [optionEntryWF] at hwe

/-- Merging a well-formed source whose section names are all absent
from the destination appends, for each source section holding at least
one option, a fresh section (keyed by its name) holding fresh copies of
its options. -/
theorem mergeSections_disjoint (S : List (String × Obj)) (nm : String)
    (C : List (String × Obj))
    (hwf : S.all sectionEntryWF = true) (hnd : nodupKeys S = true)
    (hdisj : S.all (fun kv => !keyMem C kv.1) = true) :
    mergeSections ⟨nm, C⟩ S = some ⟨nm, C ++ stripSections S⟩ := by
  induction S generalizing C with
  | nil => simp [mergeSections, stripSections]
  | cons kv rest ih =>
      obtain ⟨s0, e0⟩ := kv
      simp only [List.all_cons, Bool.and_eq_true] at hwf hdisj
      obtain ⟨hwe, hwfr⟩ := hwf
      obtain ⟨hdh, hdr⟩ := hdisj
      simp only [nodupKeys, Bool.and_eq_true, Bool.not_eq_true'] at hnd
      cases e0
      case osect n opts =>
        simp only [sectionEntryWF, Bool.and_eq_true, beq_iff_eq] at hwe
        obtain ⟨hn, hoptswf⟩ := hwe
        subst hn
        simp only [sectionOptsWF, Bool.and_eq_true] at hoptswf
        obtain ⟨hondp, hoall⟩ := hoptswf
        simp only [Bool.not_eq_true'] at hdh
        have hCn : lookup C n = Option.none := (keyMem_false_iff C n).mp hdh
        rcases opts with _ | ⟨o0, orest⟩
        · -- a section with no options: the inner loop never runs and the
          -- destination stays untouched; the stripped image drops it too
          simp only [mergeSections, mergeOpts]
          rw [ih C hwfr hnd.2 hdr]
          simp [stripSections]
        · obtain ⟨ok0, oe0⟩ := o0
          simp only [List.all_cons, Bool.and_eq_true] at hoall
          obtain ⟨howe, hoarest⟩ := hoall
          simp only [nodupKeys, Bool.and_eq_true, Bool.not_eq_true'] at hondp
          cases oe0
          case oopt onm ov od =>
            simp only [optionEntryWF, Bool.and_eq_true, beq_iff_eq,
              Bool.not_eq_true'] at howe
            obtain ⟨hon, hovco⟩ := howe
            subst hon
            have hset : configSetInSection ⟨nm, C⟩ n onm ov =
                ⟨nm, C ++ [(n, Obj.osect n [(onm, Obj.oopt onm ov Option.none)])]⟩ := by
              rw [configSetInSection_of_none _ _ _ _ hCn]
              rw [sectionSetAttr, hovco]
              simp only [Bool.false_eq_true, if_false]
              rw [dictInsert_of_lookup_none C n _ hCn]
              rfl
            have hdisj2 : orest.all
                (fun kv => !keyMem [(onm, Obj.oopt onm ov Option.none)] kv.1) = true := by
              rw [List.all_eq_true]
              intro kv hkv
              have h2 : kv.1 ≠ onm := ne_of_keyMem_false hondp.1 hkv
              simp [keyMem, Ne.symm h2]
            have hinner : mergeOpts ⟨nm, C⟩ n ((onm, Obj.oopt onm ov od) :: orest) =
                some ⟨nm, C ++ [(n, Obj.osect n
                  ((onm, Obj.oopt onm ov Option.none) :: stripOpts orest))]⟩ := by
              simp only [mergeOpts]
              rw [hset]
              rw [mergeOpts_fresh_section orest nm n n C
                [(onm, Obj.oopt onm ov Option.none)] hoarest hondp.2 hCn hdisj2]
              simp
            have hdr2 : rest.all (fun kv =>
                !keyMem (C ++ [(n, Obj.osect n
                  ((onm, Obj.oopt onm ov Option.none) :: stripOpts orest))]) kv.1) = true := by
              rw [List.all_eq_true]
              intro kv hkv
              have h1 : keyMem C kv.1 = false := by
                have := all_of_mem hdr hkv
                simpa using this
              have h2 : kv.1 ≠ n := ne_of_keyMem_false hnd.1 hkv
              simp [keyMem_append, keyMem, h1, Ne.symm h2]
            simp only [mergeSections, hinner]
            rw [ih (C ++ [(n, Obj.osect n
              ((onm, Obj.oopt onm ov Option.none) :: stripOpts orest))]) hwfr hnd.2 hdr2]
            simp [stripSections, stripOpts, List.append_assoc]
          all_goals simp [optionEntryWF] at howe
      all_goals simp [sectionEntryWF] at hwe

/-- Running the inner merge loop against a destination section that
already stores a fresh copy of every source option changes nothing. -/
theorem mergeOpts_absorbed (opts : List (String × Obj)) (nm sname n2 : String)
    (C optsC : List (String × Obj))
    (hsec : lookup C sname = some (Obj.osect n2 optsC))
    (hwf : opts.all optionEntryWF = true)
    (habs : ∀ ok v d, (ok, Obj.oopt ok v d) ∈ opts →
      lookup optsC ok = some (Obj.oopt ok v Option.none)) :
    mergeOpts ⟨nm, C⟩ sname opts = some ⟨nm, C⟩ := by
  induction opts with
  | nil => rfl
  | cons kv rest ih =>
      obtain ⟨k0, e0⟩ := kv
      simp only [List.all_cons, Bool.and_eq_true] at hwf
      obtain ⟨hwe, hwfr⟩ := hwf
      cases e0
      case oopt n v d =>
        simp only [optionEntryWF, Bool.and_eq_true, beq_iff_eq, Bool.not_eq_true'] at hwe
        obtain ⟨hn, hvco⟩ := hwe
        subst hn
        have hlk : lookup optsC n = some (Obj.oopt n v Option.none) :=
          habs n v d (List.mem_cons_self _ _)
        have hset : configSetInSection ⟨nm, C⟩ sname n v = ⟨nm, C⟩ := by
          rw [configSetInSection_of_some _ _ _ _ _ _ hsec]
          rw [sectionSetAttr, hvco]
          simp only [Bool.false_eq_true, if_false]
          rw [dictInsert_of_lookup_some optsC n _ hlk]
          rw [dictInsert_of_lookup_some C sname _ hsec]
        simp only [mergeOpts]
        rw [hset]
        exact ih hwfr fun ok v d hm => habs ok v d (List.mem_cons_of_mem _ hm)
      all_goals simp [optionEntryWF] at hwe

/-- Merging a source into a destination that already stores a fresh
copy of every option of the source leaves the destination unchanged. -/
theorem mergeSections_absorbed (S : List (String × Obj)) (nm : String)
    (C : List (String × Obj)) (hwf : S.all sectionEntryWF = true)
    (habs : ∀ sk opts ok v d, (sk, Obj.osect sk opts) ∈ S →
      (ok, Obj.oopt ok v d) ∈ opts →
      ∃ n2 optsC, lookup C sk = some (Obj.osect n2 optsC) ∧
        lookup optsC ok = some (Obj.oopt ok v Option.none)) :
    mergeSections ⟨nm, C⟩ S = some ⟨nm, C⟩ := by
  induction S with
  | nil => rfl
  | cons kv rest ih =>
      obtain ⟨s0, e0⟩ := kv
      simp only [List.all_cons, Bool.and_eq_true] at hwf
      obtain ⟨hwe, hwfr⟩ := hwf
      cases e0
      case osect n opts =>
        simp only [sectionEntryWF, Bool.and_eq_true, beq_iff_eq] at hwe
        obtain ⟨hn, hoptswf⟩ := hwe
        subst hn
        simp only [sectionOptsWF, Bool.and_eq_true] at hoptswf
        obtain ⟨hondp, hoall⟩ := hoptswf
        rcases opts with _ | ⟨o0, orest⟩
        · simp only [mergeSections, mergeOpts]
          exact ih hwfr fun sk opts2 ok v d hm1 hm2 =>
            habs sk opts2 ok v d (List.mem_cons_of_mem _ hm1) hm2
        obtain ⟨ok0, oe0⟩ := o0
        have hwo0 : optionEntryWF (ok0, oe0) = true :=
          all_of_mem hoall (List.mem_cons_self _ _)
        have hmo : mergeOpts ⟨nm, C⟩ n ((ok0, oe0) :: orest) = some ⟨nm, C⟩ := by
          cases oe0
          case oopt on0 v0 d0 =>
            simp only [optionEntryWF, Bool.and_eq_true, beq_iff_eq,
              Bool.not_eq_true'] at hwo0
            obtain ⟨hon, _⟩ := hwo0
            subst hon
            obtain ⟨n2, optsC, hsec, _⟩ :=
              habs n ((on0, Obj.oopt on0 v0 d0) :: orest) on0 v0 d0
                (List.mem_cons_self _ _) (List.mem_cons_self _ _)
            apply mergeOpts_absorbed _ nm n n2 C optsC hsec hoall
            intro ok v d hm
            obtain ⟨n2a, optsCa, hseca, hlka⟩ :=
              habs n ((on0, Obj.oopt on0 v0 d0) :: orest) ok v d
                (List.mem_cons_self _ _) hm
            rw [hsec] at hseca
            injection hseca with he
            injection he with he1 he2
            subst he2
            exact hlka
          all_goals simp [optionEntryWF] at hwo0
        simp only [mergeSections, hmo]
        exact ih hwfr fun sk opts2 ok v d hm1 hm2 =>
          habs sk opts2 ok v d (List.mem_cons_of_mem _ hm1) hm2
      all_goals simp [sectionEntryWF] at hwe

theorem lookup_stripSections (S : List (String × Obj)) (sk : String)
    (opts : List (String × Obj)) (hwf : S.all sectionEntryWF = true)
    (hl : lookup S sk = some (Obj.osect sk opts)) (hne : opts ≠ []) :
    lookup (stripSections S) sk = some (Obj.osect sk (stripOpts opts)) := by
  induction S with
  | nil => cases hl
  | cons kv rest ih =>
      obtain ⟨k0, e0⟩ := kv
      simp only [List.all_cons, Bool.and_eq_true] at hwf
      obtain ⟨hwe, hwfr⟩ := hwf
      cases e0
      case osect n o =>
        simp only [sectionEntryWF, Bool.and_eq_true, beq_iff_eq] at hwe
        obtain ⟨hn, _⟩ := hwe
        subst hn
        by_cases hk : n = sk
        · subst hk
          have hl2 : o = opts := by
            simpa [lookup] using hl
          subst hl2
          rcases o with _ | ⟨p0, prest⟩
          · exact absurd rfl hne
          · simp [stripSections, lookup]
        · simp only [lookup, if_neg hk] at hl
          rcases o with _ | ⟨q0, qrest⟩
          · simp only [stripSections, List.isEmpty_nil, if_pos]
            exact ih hwfr hl
          · simp only [stripSections, List.isEmpty_cons, Bool.false_eq_true, if_false,
              lookup, if_neg hk]
            exact ih hwfr hl
      all_goals simp [sectionEntryWF] at hwe

theorem lookup_stripOpts (opts : List (String × Obj)) (ok : String) (v : Obj)
    (d : Option Obj) (hwf : opts.all optionEntryWF = true)
    (hnd : nodupKeys opts = true) (hm : (ok, Obj.oopt ok v d) ∈ opts) :
    lookup (stripOpts opts) ok = some (Obj.oopt ok v Option.none) := by
  induction opts with
  | nil => simp at hm
  | cons kv rest ih =>
      obtain ⟨k0, e0⟩ := kv
      simp only [List.all_cons, Bool.and_eq_true] at hwf
      obtain ⟨hwe, hwfr⟩ := hwf
      simp only [nodupKeys, Bool.and_eq_true, Bool.not_eq_true'] at hnd
      cases e0
      case oopt n w dd =>
        simp only [optionEntryWF, Bool.and_eq_true, beq_iff_eq, Bool.not_eq_true'] at hwe
        obtain ⟨hn, _⟩ := hwe
        subst hn
        rcases List.mem_cons.mp hm with h1 | h1
        · injection h1 with hk hv
          subst hk
          injection hv with hv1 hv2 hv3
          subst hv2
          simp [stripOpts, lookup]
        · have hne : ok ≠ n := ne_of_keyMem_false hnd.1 h1
          simp only [stripOpts, lookup, if_neg (Ne.symm hne)]
          exact ih hwfr hnd.2 h1
      all_goals simp [optionEntryWF] at hwe

theorem stripOpts_keys (o : List (String × Obj))
    (hwf : o.all optionEntryWF = true) :
    (stripOpts o).map Prod.fst = o.map Prod.fst := by
  induction o with
  | nil => rfl
  | cons kv rest ih =>
      obtain ⟨k0, e0⟩ := kv
      simp only [List.all_cons, Bool.and_eq_true] at hwf
      obtain ⟨hwe, hwfr⟩ := hwf
      cases e0
      case oopt n w dd =>
        simp only [optionEntryWF, Bool.and_eq_true, beq_iff_eq, Bool.not_eq_true'] at hwe
        obtain ⟨hn, _⟩ := hwe
        subst hn
        simp [stripOpts, ih hwfr]
      all_goals simp [optionEntryWF] at hwe

theorem stripSections_keys (S : List (String × Obj))
    (hwf : S.all sectionEntryWF = true) :
    (stripSections S).map Prod.fst = (S.filter keepSection).map Prod.fst := by
  induction S with
  | nil => rfl
  | cons kv rest ih =>
      obtain ⟨k0, e0⟩ := kv
      simp only [List.all_cons, Bool.and_eq_true] at hwf
      obtain ⟨hwe, hwfr⟩ := hwf
      cases e0
      case osect n o =>
        simp only [sectionEntryWF, Bool.and_eq_true, beq_iff_eq] at hwe
        obtain ⟨hn, _⟩ := hwe
        subst hn
        rcases o with _ | ⟨q0, qrest⟩
        · simp [stripSections, keepSection, List.filter_cons, ih hwfr]
        · simp [stripSections, keepSection, List.filter_cons, ih hwfr]
      all_goals simp [sectionEntryWF] at hwe

theorem lookup_stripSections_filter (S : List (String × Obj)) (s : String)
    (hwf : S.all sectionEntryWF = true) :
    lookup (stripSections S) s =
      Option.map stripSectionObj (lookup (S.filter keepSection) s) := by
  induction S with
  | nil => rfl
  | cons kv rest ih =>
      obtain ⟨k0, e0⟩ := kv
      simp only [List.all_cons, Bool.and_eq_true] at hwf
      obtain ⟨hwe, hwfr⟩ := hwf
      cases e0
      case osect n o =>
        simp only [sectionEntryWF, Bool.and_eq_true, beq_iff_eq] at hwe
        obtain ⟨hn, _⟩ := hwe
        subst hn
        rcases o with _ | ⟨q0, qrest⟩
        · simp only [stripSections, List.isEmpty_nil, if_pos, List.filter_cons,
            keepSection, Bool.not_true, Bool.false_eq_true, if_false]
          exact ih hwfr
        · by_cases hk : n = s
          · subst hk
            simp [stripSections, keepSection, List.filter_cons, lookup, stripSectionObj]
          · simp only [stripSections, List.isEmpty_cons, Bool.false_eq_true, if_false,
              keepSection, List.filter_cons, Bool.not_false, if_pos, lookup, if_neg hk]
            exact ih hwfr
      all_goals simp [sectionEntryWF] at hwe

theorem optValueAt_stripOpts (o : List (String × Obj)) (k : String)
    (hwf : o.all optionEntryWF = true) :
    (lookup (stripOpts o) k).bind optValue = (lookup o k).bind optValue := by
  induction o with
  | nil => rfl
  | cons kv rest ih =>
      obtain ⟨k0, e0⟩ := kv
      simp only [List.all_cons, Bool.and_eq_true] at hwf
      obtain ⟨hwe, hwfr⟩ := hwf
      cases e0
      case oopt n w dd =>
        simp only [optionEntryWF, Bool.and_eq_true, beq_iff_eq, Bool.not_eq_true'] at hwe
        obtain ⟨hn, _⟩ := hwe
        subst hn
        by_cases hk : n = k
        · subst hk
          simp [stripOpts, lookup, optValue]
        · simp only [stripOpts, lookup, if_neg hk]
          exact ih hwfr
      all_goals simp [optionEntryWF] at hwe

/-!  ### Claims C5 and C8 -/

/-- Claim C5 counterexample: the merge loops re-key every option by its
`name` attribute, not by the key it was stored under.  The two can
differ: `a.s.k = ConfigOption("other", "x")` stores an option named
`"other"` under the key `"k"` (`__setattr__` never renames a
`ConfigOption`).  Merging this `a` with an empty `b` yields a tree
whose `s` section holds only the key `"other"`: the path `s.k`,
present only in `a` with value `"x"`, reads as nothing in the merged
tree — refuting "every key present only in a maps to a's value". -/
theorem claim_C5_counterexample :
    configAdd ⟨"A", [("s", Obj.osect "s" [("k", Obj.oopt "other" (Obj.ostr "x") Option.none)])]⟩
        ⟨"B", []⟩ =
      some ⟨"A+B", [("s", Obj.osect "s"
        [("other", Obj.oopt "other" (Obj.ostr "x") Option.none)])]⟩ ∧
    readValue ⟨"A", [("s", Obj.osect "s" [("k", Obj.oopt "other" (Obj.ostr "x") Option.none)])]⟩
        "s" "k" = some (Obj.ostr "x") ∧
    readValue (⟨"B", []⟩ : Configuration) "s" "k" = Option.none ∧
    readValue ⟨"A+B", [("s", Obj.osect "s"
        [("other", Obj.oopt "other" (Obj.ostr "x") Option.none)])]⟩ "s" "k" = Option.none ∧
    (some (Obj.ostr "x") : Option Obj) ≠ Option.none := by
  refine ⟨rfl, rfl, rfl, rfl, ?_⟩
  intro h
  cases h

/-- Claim C5 as amended: restricted to well-formed configurations —
dict keys distinct, every stored section and option named by the key
it is stored under, and no option value itself a `ConfigOption` (the
invariants of trees built by plain-value assignment; violated only by
storing pre-made `ConfigOption` objects, as in the counterexample) —
merge is right-biased: at every path of the merged tree the readable
value is `b`'s value when `b` defines the path, and `a`'s value when
only `a` does. -/
theorem claim_C5_merge_right_wins (a b m : Configuration) (s k : String)
    (ha : configWF a = true) (hb : configWF b = true)
    (hm : configAdd a b = some m) :
    readValue m s k = (readValue b s k).orElse (fun _ => readValue a s k) := by
  obtain ⟨m2, hm2, hst⟩ := configAdd_storedOption a b ha hb
  rw [hm] at hm2
  injection hm2 with hmm
  subst hmm
  have hs := hst s k
  rw [storedOption] at hs
  rw [readValue, readValueS, hs]
  rcases (readValue b s k).orElse (fun _ => readValue a s k) with _ | v
  · rfl
  · rfl

/-- Claim C5 witness: `db.port` lives only in `exA`, `web.x` only in
`exB`, `db.host` in both; the instantiation below is the shared-key
case, where `exB`'s value wins. -/
theorem claim_C5_merge_right_wins_witness :
    configWF exA = true ∧ configWF exB = true ∧ configAdd exA exB = some exM ∧
    readValue exM "db" "host" =
      (readValue exB "db" "host").orElse (fun _ => readValue exA "db" "host") :=
  ⟨rfl, rfl, rfl, claim_C5_merge_right_wins exA exB exM "db" "host" rfl rfl rfl⟩

/-- Claim C8 counterexample: when a source option's value is itself a
`ConfigOption` (reachable: `a.s.k = ConfigOption("k", ConfigOption("inner",
"w", "d"))` stores the outer option directly), the merge assignment
`setattr(sec, o.name, o())` passes that inner `ConfigOption` to
`__setattr__`, whose `isinstance` branch stores the source-owned object
itself into the result slot — name `"inner"` and description `"d"`
intact — not a newly constructed `ConfigOption(key, value)`
(which would be named `"k"` with description `None`).  This refutes
"stores it into a newly constructed Option slot in the result". -/
theorem claim_C8_counterexample :
    configAdd ⟨"A", [("s", Obj.osect "s" [("k", Obj.oopt "k"
        (Obj.oopt "inner" (Obj.ostr "w") (some (Obj.ostr "d"))) Option.none)])]⟩
        ⟨"B", []⟩ =
      some ⟨"A+B", [("s", Obj.osect "s"
        [("k", Obj.oopt "inner" (Obj.ostr "w") (some (Obj.ostr "d")))])]⟩ ∧
    readValue ⟨"A", [("s", Obj.osect "s" [("k", Obj.oopt "k"
        (Obj.oopt "inner" (Obj.ostr "w") (some (Obj.ostr "d"))) Option.none)])]⟩ "s" "k" =
      some (Obj.oopt "inner" (Obj.ostr "w") (some (Obj.ostr "d"))) ∧
    storedOption ⟨"A+B", [("s", Obj.osect "s"
        [("k", Obj.oopt "inner" (Obj.ostr "w") (some (Obj.ostr "d")))])]⟩ "s" "k" =
      some (Obj.oopt "inner" (Obj.ostr "w") (some (Obj.ostr "d"))) ∧
    some (Obj.oopt "inner" (Obj.ostr "w") (some (Obj.ostr "d"))) ≠
      some (Obj.oopt "k"
        (Obj.oopt "inner" (Obj.ostr "w") (some (Obj.ostr "d"))) Option.none) := by
  refine ⟨rfl, rfl, rfl, ?_⟩
  intro h
  injection h with h1
  injection h1 with hn hv hd
  exact absurd hn (by decide)

/-- Claim C8 as amended: restricted to well-formed sources (no
`ConfigOption`-valued option values, entries named by their keys —
see the counterexample for the excluded reachable case, where the
source-owned inner option object is stored directly into the result),
the non-destructive merge only reads the source trees — in this
embedding they are taken by value and appear unchanged in the result's
computation — and every option slot of the result is a freshly
constructed `ConfigOption`: named by its key, with description `None`
(even where a source option carried one), holding a copy of the
right-biased source value.  In particular no source option object is
reused or mutated. -/
theorem claim_C8_merge_builds_fresh_slots (a b m : Configuration) (s k : String)
    (ha : configWF a = true) (hb : configWF b = true)
    (hm : configAdd a b = some m) :
    storedOption m s k =
      match (readValue b s k).orElse (fun _ => readValue a s k) with
      | some v => some (Obj.oopt k v Option.none)
      | Option.none => Option.none := by
  obtain ⟨m2, hm2, hst⟩ := configAdd_storedOption a b ha hb
  rw [hm] at hm2
  injection hm2 with hmm
  subst hmm
  exact hst s k

/-- Claim C8 witness: `exA`'s `db.port` option carries a description,
but the merged slot at `db.port` is a fresh `ConfigOption` with
description `None` holding the copied value — not `exA`'s option
object. -/
theorem claim_C8_merge_builds_fresh_slots_witness :
    configWF exA = true ∧ configWF exB = true ∧ configAdd exA exB = some exM ∧
    storedOption exM "db" "port" =
      match (readValue exB "db" "port").orElse (fun _ => readValue exA "db" "port") with
      | some v => some (Obj.oopt "port" v Option.none)
      | Option.none => Option.none :=
  ⟨rfl, rfl, rfl, claim_C8_merge_builds_fresh_slots exA exB exM "db" "port" rfl rfl rfl⟩

/-!  ### Claim C9 -/

/-- Claim C9 counterexample, in two parts.  First, for a configuration
whose only section is empty, `merge(a, a)` yields a configuration with
no sections at all — the destination section is only ever created
inside the inner option loop, so a section without options is dropped
and the result is not equal in contents to `a`.  Second, even among
non-empty trees the equality needs the well-formedness restriction of
the amended claim: for a reachable tree holding an option named `"j"`
under the key `"k"` (stored via a pre-made `ConfigOption`), the merge
re-keys the option by its name, so `merge(a, a)` has option key `"j"`
where `a` has `"k"` and the contents differ. -/
theorem claim_C9_counterexample :
    (configAdd ⟨"Configuration", [("s", Obj.osect "s" [])]⟩
        ⟨"Configuration", [("s", Obj.osect "s" [])]⟩ =
      some ⟨"Configuration+Configuration", []⟩ ∧
    ¬ ContentsEqual ⟨"Configuration+Configuration", []⟩
        ⟨"Configuration", [("s", Obj.osect "s" [])]⟩) ∧
    (configAdd ⟨"Configuration", [("s", Obj.osect "s"
          [("k", Obj.oopt "j" (Obj.ostr "x") Option.none)])]⟩
        ⟨"Configuration", [("s", Obj.osect "s"
          [("k", Obj.oopt "j" (Obj.ostr "x") Option.none)])]⟩ =
      some ⟨"Configuration+Configuration", [("s", Obj.osect "s"
          [("j", Obj.oopt "j" (Obj.ostr "x") Option.none)])]⟩ ∧
    ¬ ContentsEqual
        ⟨"Configuration+Configuration", [("s", Obj.osect "s"
          [("j", Obj.oopt "j" (Obj.ostr "x") Option.none)])]⟩
        (dropEmptySections ⟨"Configuration", [("s", Obj.osect "s"
          [("k", Obj.oopt "j" (Obj.ostr "x") Option.none)])]⟩)) := by
  constructor
  · refine ⟨rfl, ?_⟩
    intro hce
    obtain ⟨h1, _⟩ := hce
    simp [configKeys] at h1
  · refine ⟨rfl, ?_⟩
    intro hce
    exact absurd (hce.2.1 "s" (by decide)) (by decide)

/-- Claim C9 as amended: for every well-formed configuration `a` —
dict keys distinct, every stored section and option named by its key,
no option value itself a `ConfigOption` (the invariants of trees built
by plain-value assignment; the counterexample's second part shows the
equality fails on reachable trees violating them) — `merge(a, a)`
yields a tree equal in contents to `a` restricted to its non-empty
sections: the same section keys except that sections holding no
options are dropped, and within each surviving section the same option
keys with equal values.  (For a well-formed configuration with no
empty sections this is the claimed equality.) -/
theorem claim_C9_self_merge (a m : Configuration) (ha : configWF a = true)
    (hm : configAdd a a = some m) :
    ContentsEqual m (dropEmptySections a) := by
  simp only [configWF, configSectionsWF, Bool.and_eq_true] at ha
  obtain ⟨hnd, hwfS⟩ := ha
  have hdisj0 : a.sections.all (fun kv => !keyMem [] kv.1) = true := by
    rw [List.all_eq_true]
    intro kv hkv
    simp [keyMem]
  have h1 := mergeSections_disjoint a.sections (a.name ++ "+" ++ a.name) [] hwfS hnd hdisj0
  rw [List.nil_append] at h1
  have h2 : mergeSections ⟨a.name ++ "+" ++ a.name, stripSections a.sections⟩ a.sections =
      some ⟨a.name ++ "+" ++ a.name, stripSections a.sections⟩ := by
    apply mergeSections_absorbed _ _ _ hwfS
    intro sk opts ok v d hm1 hm2
    have hlS : lookup a.sections sk = some (Obj.osect sk opts) :=
      lookup_of_mem_nodup _ _ _ hm1 hnd
    have hwfe := all_of_mem hwfS hm1
    simp only [sectionEntryWF, Bool.and_eq_true, beq_iff_eq] at hwfe
    obtain ⟨_, how⟩ := hwfe
    simp only [sectionOptsWF, Bool.and_eq_true] at how
    have hne : opts ≠ [] := by
      intro hc
      subst hc
      simp at hm2
    refine ⟨sk, stripOpts opts,
      lookup_stripSections a.sections sk opts hwfS hlS hne, ?_⟩
    exact lookup_stripOpts opts ok v d how.2 how.1 hm2
  have hadd : configAdd a a =
      some ⟨a.name ++ "+" ++ a.name, stripSections a.sections⟩ := by
    simp only [configAdd, mergeFrom, h1, h2]
  rw [hadd] at hm
  injection hm with hmm
  subst hmm
  refine ⟨?_, ?_, ?_⟩
  · simp only [configKeys, dropEmptySections]
    exact stripSections_keys a.sections hwfS
  · intro s hs
    simp only [optionKeysIn, dropEmptySections]
    rw [lookup_stripSections_filter a.sections s hwfS]
    rcases hl : lookup (a.sections.filter keepSection) s with _ | e
    · rfl
    · cases e
      case osect n o =>
        have hmemS := List.mem_of_mem_filter (lookup_mem _ _ _ hl)
        have hwfe := all_of_mem hwfS hmemS
        simp only [sectionEntryWF, Bool.and_eq_true, beq_iff_eq] at hwfe
        obtain ⟨_, how⟩ := hwfe
        simp only [sectionOptsWF, Bool.and_eq_true] at how
        simp [stripSectionObj, stripOpts_keys o how.2]
      all_goals simp [stripSectionObj]
  · intro s hs k hk
    simp only [readValue, readValueS, storedOptionS, storedOption, dropEmptySections]
    rw [lookup_stripSections_filter a.sections s hwfS]
    rcases hl : lookup (a.sections.filter keepSection) s with _ | e
    · rfl
    · cases e
      case osect n o =>
        have hmemS := List.mem_of_mem_filter (lookup_mem _ _ _ hl)
        have hwfe := all_of_mem hwfS hmemS
        simp only [sectionEntryWF, Bool.and_eq_true, beq_iff_eq] at hwfe
        obtain ⟨_, how⟩ := hwfe
        simp only [sectionOptsWF, Bool.and_eq_true] at how
        simp only [Option.map_some, stripSectionObj]
        exact optValueAt_stripOpts o k how.2
      all_goals simp [stripSectionObj]

/-- Claim C9 witness: `exC` has a non-empty section `s` and an empty
section `empty`; merging it with itself keeps `s` (key, option key and
value intact) and drops `empty`. -/
theorem claim_C9_self_merge_witness :
    configWF exC = true ∧ configAdd exC exC = some exMC ∧
    ContentsEqual exMC (dropEmptySections exC) :=
  ⟨rfl, rfl, claim_C9_self_merge exC exMC rfl rfl⟩

end PyConfiguration
